import Mathlib

/-!
# Verification of the sql-loader statement splitter and executor

Shallow embedding of the `sql-loader-go` repository:

* `internal/database/database.go` — `Connect` and `ExecuteScript`
* `internal/loader/loader.go` — `LoadScript`

Scripts are modelled as `List Char` (Go strings are sequences of runes for
the purposes of `strings.Split` and `strings.TrimSpace`).  Database, driver
and filesystem effects are modelled as explicit oracles, and each embedded
function additionally returns the trace of external calls it made, so that
claims about "what was issued" and "what was attempted" are statable.
-/

namespace SqlLoader

/-- Go error values as built by this repository: either a plain
`fmt.Errorf` message with no wrapped cause, or a `fmt.Errorf` whose format
string embeds a single `%w` verb, rendering as `pre ++ cause ++ post` and
wrapping `cause` (retrievable by `errors.Unwrap`). -/
inductive GoErr : Type where
  | base (msg : String)
  | wrapf (pre : String) (cause : GoErr) (post : String)
deriving DecidableEq, Repr

/-- The human-readable message of an error (what `err.Error()` returns):
a `%w` verb renders the wrapped error's message in place. -/
def GoErr.render : GoErr → String
  | .base m => m
  | .wrapf pre c post => pre ++ c.render ++ post

/-- `errors.Unwrap`: the error wrapped via `%w`, if any. -/
def GoErr.unwrap : GoErr → Option GoErr
  | .base _ => none
  | .wrapf _ c _ => some c

/-- In this repository, configuration-class errors (empty DSN, empty script
path) are exactly the plain `fmt.Errorf` messages that wrap no underlying
cause; read-class, open-class, ping-class and execution-class errors all
wrap an underlying error with `%w`. -/
def GoErr.isConfigClass : GoErr → Bool
  | .base _ => true
  | .wrapf _ _ _ => false

/-- `needle` occurs as a contiguous substring of `hay`. -/
def strOccurs (needle hay : String) : Prop := ∃ a b, hay = a ++ needle ++ b

/-- `unicode.IsSpace` on a rune, as used by Go's `strings.TrimSpace`:
ASCII whitespace, NEL, NBSP and the Unicode space separators. -/
def isSpaceGo (c : Char) : Bool :=
  let n := c.toNat
  n == 0x20 || (decide (0x9 ≤ n) && decide (n ≤ 0xD)) || n == 0x85 || n == 0xA0 ||
  n == 0x1680 || (decide (0x2000 ≤ n) && decide (n ≤ 0x200A)) ||
  n == 0x2028 || n == 0x2029 || n == 0x202F || n == 0x205F || n == 0x3000

/-- Go's `strings.TrimSpace`: drop whitespace from the front, then from
the back. -/
def trimSpace (l : List Char) : List Char :=
  (l.dropWhile isSpaceGo).rdropWhile isSpaceGo

/-- Go's `strings.Split(s, ";")`: the subsequences of `s` between
consecutive literal `';'` characters, in order.  Purely lexical: quotes
and comments are not treated specially. -/
def splitOnSemi : List Char → List (List Char)
  | [] => [[]]
  | c :: rest =>
    if c = ';' then [] :: splitOnSemi rest
    else
      match splitOnSemi rest with
      | [] => [[c]]
      | f :: fs => (c :: f) :: fs

/-- The candidate statement sequence described by the spec: the script
split on every literal `';'`, each fragment trimmed of surrounding
whitespace, fragments that are empty after trimming removed, in
left-to-right order. -/
def splitTrimFilter (script : List Char) : List (List Char) :=
  ((splitOnSemi script).map trimSpace).filter (fun s => !s.isEmpty)

/-- Proof device: apply `g` to the last element of a list. -/
def mapLast (g : List Char → List Char) : List (List Char) → List (List Char)
  | [] => []
  | [x] => [g x]
  | x :: y :: xs => x :: mapLast g (y :: xs)

/-- The body of `ExecuteScript`'s loop over the fragments produced by
`strings.Split`: trim each fragment, skip it if empty, otherwise issue it
via `db.Exec`.  `dbExec` is the `db.Exec` oracle as a state transformer;
the result is the final database state, the trace of statements issued to
the database (in order), and the error returned, wrapping the driver
error with `failed to execute statement: %w` on the first failure. -/
def execLoop {σ : Type} (dbExec : σ → List Char → Except GoErr σ) :
    σ → List (List Char) → σ × List (List Char) × Option GoErr
  | st, [] => (st, [], none)
  | st, raw :: rest =>
    let stmt := trimSpace raw
    if stmt.isEmpty then execLoop dbExec st rest
    else
      match dbExec st stmt with
      | .error e => (st, [stmt], some (.wrapf "failed to execute statement: " e ""))
      | .ok st2 =>
        match execLoop dbExec st2 rest with
        | (st3, tr, r) => (st3, stmt :: tr, r)

/-- `ExecuteScript` from `internal/database/database.go`: trim the whole
script; if empty, succeed with no statements; otherwise split on `';'`
and run the loop. -/
def ExecuteScript {σ : Type} (dbExec : σ → List Char → Except GoErr σ)
    (st : σ) (script : List Char) : σ × List (List Char) × Option GoErr :=
  let t := trimSpace script
  if t.isEmpty then (st, [], none)
  else execLoop dbExec st (splitOnSemi t)

/-- Proof device: the executor loop specialised to an already
trimmed-and-filtered statement list. -/
def runClean {σ : Type} (dbExec : σ → List Char → Except GoErr σ) :
    σ → List (List Char) → σ × List (List Char) × Option GoErr
  | st, [] => (st, [], none)
  | st, s :: rest =>
    match dbExec st s with
    | .error e => (st, [s], some (.wrapf "failed to execute statement: " e ""))
    | .ok st2 =>
      match runClean dbExec st2 rest with
      | (st3, tr, r) => (st3, s :: tr, r)

/-- Sequentially apply statements to the database state, stopping at the
first failure.  Used to phrase hypotheses about prefixes of a run. -/
def applyStmts {σ : Type} (dbExec : σ → List Char → Except GoErr σ) :
    σ → List (List Char) → Except GoErr σ
  | st, [] => .ok st
  | st, s :: rest =>
    match dbExec st s with
    | .error e => .error e
    | .ok st2 => applyStmts dbExec st2 rest

/-- The calls `Connect` makes against the driver, in order. -/
inductive DBAction : Type where
  | openCall | pingCall | closeCall
deriving DecidableEq, Repr

/-- Oracle for the `database/sql` layer: outcomes of `sql.Open`,
`db.Ping` and `db.Close` (`none` = success for the latter two). -/
structure Backend (H : Type) where
  sqlOpen : String → String → Except GoErr H
  ping : H → Option GoErr
  close : H → Option GoErr

/-- `Connect` from `internal/database/database.go`: reject an empty DSN,
open, ping; on ping failure close the handle first and report the ping
error (mentioning a close failure in the message).  Returns the handle,
the error (the Go function returns both slots) and the trace of driver
calls made. -/
def Connect {H : Type} (B : Backend H) (driver dsn : String) :
    Option H × Option GoErr × List DBAction :=
  if dsn = "" then (none, some (.base "DSN cannot be empty"), [])
  else
    match B.sqlOpen driver dsn with
    | .error e => (none, some (.wrapf "failed to open database: " e ""), [.openCall])
    | .ok db =>
      match B.ping db with
      | some pe =>
        match B.close db with
        | some ce =>
          (none, some (.wrapf "failed to ping database: " pe
            (" (close error: " ++ ce.render ++ ")")),
           [.openCall, .pingCall, .closeCall])
        | none =>
          (none, some (.wrapf "failed to ping database: " pe ""),
           [.openCall, .pingCall, .closeCall])
      | none => (some db, none, [.openCall, .pingCall])

/-- Filesystem oracle: `os.ReadFile` returning the file's bytes. -/
structure FileSys where
  readFile : String → Except GoErr (List Nat)

/-- `LoadScript` from `internal/loader/loader.go`: reject an empty path
before touching the filesystem, otherwise read the file and return its
bytes as text (`string(content)` is the identity on the byte sequence).
The final `Bool` records whether `os.ReadFile` was called. -/
def LoadScript (fs : FileSys) (path : String) :
    Option (List Nat) × Option GoErr × Bool :=
  if path = "" then (none, some (.base "script path cannot be empty"), false)
  else
    match fs.readFile path with
    | .error e => (none, some (.wrapf "failed to read script file: " e ""), true)
    | .ok content => (some content, none, true)

/-! ### Concrete fixtures used to exercise the theorems on closed inputs -/

/-- A database oracle over a `Nat` counter state: executing the statement
`b` fails, every other statement succeeds and bumps the counter. -/
def countExec : Nat → List Char → Except GoErr Nat := fun st s =>
  if s = ['b'] then .error (.base "boom") else .ok (st + 1)

/-- A backend whose ping and close both fail. -/
def pingFailBackend : Backend Unit where
  sqlOpen := fun _ _ => .ok ()
  ping := fun _ => some (.base "ping failed")
  close := fun _ => some (.base "close failed")

/-- A backend on which every call succeeds. -/
def okBackend : Backend Unit where
  sqlOpen := fun _ _ => .ok ()
  ping := fun _ => none
  close := fun _ => none

/-- A filesystem with a single two-byte file `good.sql`. -/
def demoFS : FileSys where
  readFile := fun p =>
    if p = "good.sql" then .ok [65, 66] else .error (.base "no such file")

/-! ## Lemmas about `splitOnSemi` and `trimSpace` -/

theorem splitOnSemi_ne_nil (l : List Char) : splitOnSemi l ≠ [] := by
  induction l with
  | nil => simp [splitOnSemi]
  | cons c rest ih =>
    simp only [splitOnSemi]
    split
    · simp
    · cases h : splitOnSemi rest with
      | nil => simp
      | cons f fs => simp

theorem splitOnSemi_no_semi (l : List Char) (h : ∀ c ∈ l, c ≠ ';') :
    splitOnSemi l = [l] := by
  induction l with
  | nil => rfl
  | cons c rest ih =>
    have hc : c ≠ ';' := h c (List.mem_cons_self c rest)
    have hrest : splitOnSemi rest = [rest] :=
      ih (fun x hx => h x (List.mem_cons_of_mem c hx))
    simp [splitOnSemi, hc, hrest]

theorem mem_splitOnSemi (l : List Char) (f : List Char) (hf : f ∈ splitOnSemi l)
    (c : Char) (hc : c ∈ f) : c ∈ l ∧ c ≠ ';' := by
  induction l generalizing f with
  | nil =>
    simp only [splitOnSemi, List.mem_singleton] at hf
    subst hf
    simp at hc
  | cons a rest ih =>
    simp only [splitOnSemi] at hf
    by_cases ha : a = ';'
    · rw [if_pos ha] at hf
      rcases List.mem_cons.mp hf with h1 | h1
      · subst h1; simp at hc
      · have := ih f h1 hc
        exact ⟨List.mem_cons_of_mem a this.1, this.2⟩
    · rw [if_neg ha] at hf
      cases hs : splitOnSemi rest with
      | nil => exact absurd hs (splitOnSemi_ne_nil rest)
      | cons g gs =>
        rw [hs] at hf
        rcases List.mem_cons.mp hf with h1 | h1
        · subst h1
          rcases List.mem_cons.mp hc with h2 | h2
          · subst h2; exact ⟨List.mem_cons_self c rest, ha⟩
          · have := ih g (by rw [hs]; exact List.mem_cons_self g gs) h2
            exact ⟨List.mem_cons_of_mem a this.1, this.2⟩
        · have := ih f (by rw [hs]; exact List.mem_cons_of_mem g h1) hc
          exact ⟨List.mem_cons_of_mem a this.1, this.2⟩

theorem dropWhile_append_all (p : Char → Bool) (sp l : List Char)
    (h : ∀ c ∈ sp, p c) : (sp ++ l).dropWhile p = l.dropWhile p := by
  induction sp with
  | nil => rfl
  | cons c rest ih =>
    have hc : p c := h c (List.mem_cons_self c rest)
    simp only [List.cons_append, List.dropWhile_cons, hc, if_true]
    exact ih (fun x hx => h x (List.mem_cons_of_mem c hx))

theorem rdropWhile_append_all (p : Char → Bool) (sp l : List Char)
    (h : ∀ c ∈ sp, p c) : (l ++ sp).rdropWhile p = l.rdropWhile p := by
  unfold List.rdropWhile
  rw [List.reverse_append, dropWhile_append_all p sp.reverse l.reverse
    (fun c hc => h c (List.mem_reverse.mp hc))]

theorem trimSpace_prepend_spaces (sp l : List Char) (h : ∀ c ∈ sp, isSpaceGo c) :
    trimSpace (sp ++ l) = trimSpace l := by
  unfold trimSpace
  rw [dropWhile_append_all isSpaceGo sp l h]

theorem trimSpace_append_spaces (sp l : List Char) (h : ∀ c ∈ sp, isSpaceGo c) :
    trimSpace (l ++ sp) = trimSpace l := by
  unfold trimSpace
  rw [List.dropWhile_append]
  by_cases hl : (l.dropWhile isSpaceGo).isEmpty
  · rw [if_pos hl]
    have hsp : sp.dropWhile isSpaceGo = [] := List.dropWhile_eq_nil_iff.mpr h
    rw [hsp, List.isEmpty_iff.mp hl]
  · rw [if_neg hl]
    exact rdropWhile_append_all isSpaceGo sp _ h

theorem trimSpace_eq_nil_of_all (l : List Char) (h : ∀ c ∈ l, isSpaceGo c) :
    trimSpace l = [] := by
  unfold trimSpace
  rw [List.dropWhile_eq_nil_iff.mpr h]
  simp [List.rdropWhile]

theorem all_space_of_trimSpace_eq_nil (l : List Char) (h : trimSpace l = []) :
    ∀ c ∈ l, isSpaceGo c := by
  unfold trimSpace at h
  have hdrop : ∀ c ∈ l.dropWhile isSpaceGo, isSpaceGo c :=
    List.rdropWhile_eq_nil_iff.mp h
  intro c hc
  rw [← List.takeWhile_append_dropWhile (p := isSpaceGo) (l := l)] at hc
  rcases List.mem_append.mp hc with h1 | h1
  · exact List.mem_takeWhile_imp h1
  · exact hdrop c h1

theorem mem_trimSpace (l : List Char) (c : Char) (hc : c ∈ trimSpace l) : c ∈ l := by
  unfold trimSpace at hc
  have h1 : c ∈ l.dropWhile isSpaceGo :=
    (( List.rdropWhile_prefix isSpaceGo _).sublist.subset) hc
  exact ((List.dropWhile_suffix isSpaceGo).sublist.subset) h1

theorem rdropWhile_append_rtakeWhile (p : Char → Bool) (l : List Char) :
    l.rdropWhile p ++ l.rtakeWhile p = l := by
  unfold List.rdropWhile List.rtakeWhile
  rw [← List.reverse_append, List.takeWhile_append_dropWhile, List.reverse_reverse]

theorem trimSpace_idem (l : List Char) : trimSpace (trimSpace l) = trimSpace l := by
  have h2 : trimSpace l ++ (l.dropWhile isSpaceGo).rtakeWhile isSpaceGo
      = l.dropWhile isSpaceGo := rdropWhile_append_rtakeWhile isSpaceGo _
  have hs2 : ∀ c ∈ (l.dropWhile isSpaceGo).rtakeWhile isSpaceGo, isSpaceGo c :=
    fun _ hc => List.mem_rtakeWhile_imp hc
  have hs1 : ∀ c ∈ l.takeWhile isSpaceGo, isSpaceGo c :=
    fun _ hc => List.mem_takeWhile_imp hc
  calc trimSpace (trimSpace l)
      = trimSpace (trimSpace l ++ (l.dropWhile isSpaceGo).rtakeWhile isSpaceGo) :=
        (trimSpace_append_spaces _ _ hs2).symm
    _ = trimSpace (l.dropWhile isSpaceGo) := by rw [h2]
    _ = trimSpace (l.takeWhile isSpaceGo ++ l.dropWhile isSpaceGo) :=
        (trimSpace_prepend_spaces _ _ hs1).symm
    _ = trimSpace l := by rw [List.takeWhile_append_dropWhile]

/-! ## `splitTrimFilter` is invariant under trimming the whole script -/

theorem mapLast_cons (g : List Char → List Char) (x : List Char)
    (xs : List (List Char)) (hxs : xs ≠ []) :
    mapLast g (x :: xs) = x :: mapLast g xs := by
  cases xs with
  | nil => exact absurd rfl hxs
  | cons y ys => rfl

theorem splitOnSemi_append_no_semi (l t : List Char) (ht : ∀ c ∈ t, c ≠ ';') :
    splitOnSemi (l ++ t) = mapLast (· ++ t) (splitOnSemi l) := by
  induction l with
  | nil =>
    rw [List.nil_append, splitOnSemi_no_semi t ht]
    rfl
  | cons c rest ih =>
    by_cases hc : c = ';'
    · have h1 : splitOnSemi ((c :: rest) ++ t) = [] :: splitOnSemi (rest ++ t) := by
        simp [splitOnSemi, hc]
      have h2 : splitOnSemi (c :: rest) = [] :: splitOnSemi rest := by
        simp [splitOnSemi, hc]
      rw [h1, h2, ih, mapLast_cons]
      · intro h
        exact splitOnSemi_ne_nil rest (by
          cases hs : splitOnSemi rest with
          | nil => rfl
          | cons f fs => rw [hs] at h; cases hfs : mapLast (· ++ t) (f :: fs) <;> simp_all [mapLast_cons]
          )
    · cases hs : splitOnSemi rest with
      | nil => exact absurd hs (splitOnSemi_ne_nil rest)
      | cons f fs =>
        have h2 : splitOnSemi (c :: rest) = (c :: f) :: fs := by
          simp [splitOnSemi, hc, hs]
        cases hfs : fs with
        | nil =>
          have hst : splitOnSemi (rest ++ t) = [f ++ t] := by
            rw [ih, hs, hfs]; rfl
          have h1 : splitOnSemi ((c :: rest) ++ t) = [(c :: f) ++ t] := by
            simp [splitOnSemi, hc, hst]
          rw [h1, h2, hfs]
          rfl
        | cons y ys =>
          have hst : splitOnSemi (rest ++ t) = f :: mapLast (· ++ t) (y :: ys) := by
            rw [ih, hs, hfs, mapLast_cons (· ++ t) f (y :: ys) (by simp)]
          have h1 : splitOnSemi ((c :: rest) ++ t)
              = (c :: f) :: mapLast (· ++ t) (y :: ys) := by
            simp [splitOnSemi, hc, hst]
          rw [h1, h2, hfs, mapLast_cons (· ++ t) (c :: f) (y :: ys) (by simp)]

theorem map_trim_mapLast (sp : List Char) (hsp : ∀ c ∈ sp, isSpaceGo c) :
    ∀ fr : List (List Char),
      (mapLast (· ++ sp) fr).map trimSpace = fr.map trimSpace := by
  intro fr
  induction fr with
  | nil => rfl
  | cons x xs ih =>
    cases xs with
    | nil =>
      show [trimSpace (x ++ sp)] = [trimSpace x]
      rw [trimSpace_append_spaces sp x hsp]
    | cons y ys =>
      rw [mapLast_cons _ _ _ (by simp), List.map_cons, List.map_cons, ih]

theorem splitTrimFilter_prepend_spaces (sp l : List Char)
    (h : ∀ c ∈ sp, isSpaceGo c) :
    splitTrimFilter (sp ++ l) = splitTrimFilter l := by
  induction sp with
  | nil => rfl
  | cons c rest ih =>
    have hc : isSpaceGo c := h c (List.mem_cons_self c rest)
    have hcs : c ≠ ';' := by
      intro hceq
      rw [hceq] at hc
      exact absurd hc (by decide)
    have ih2 := ih (fun x hx => h x (List.mem_cons_of_mem c hx))
    cases hs : splitOnSemi (rest ++ l) with
    | nil => exact absurd hs (splitOnSemi_ne_nil _)
    | cons f fs =>
      have h1 : splitOnSemi ((c :: rest) ++ l) = (c :: f) :: fs := by
        simp [splitOnSemi, hcs, hs]
      have htrim : trimSpace (c :: f) = trimSpace f := by
        have := trimSpace_prepend_spaces [c] f (by intro x hx; simp at hx; rw [hx]; exact hc)
        simpa using this
      unfold splitTrimFilter at ih2 ⊢
      rw [hs, List.map_cons] at ih2
      rw [h1, List.map_cons, htrim]
      exact ih2

theorem splitTrimFilter_append_spaces (l sp : List Char)
    (h : ∀ c ∈ sp, isSpaceGo c) :
    splitTrimFilter (l ++ sp) = splitTrimFilter l := by
  have hns : ∀ c ∈ sp, c ≠ ';' := by
    intro c hc hceq
    have := h c hc
    rw [hceq] at this
    exact absurd this (by decide)
  unfold splitTrimFilter
  rw [splitOnSemi_append_no_semi l sp hns, map_trim_mapLast sp h]

theorem splitTrimFilter_trimSpace (s : List Char) :
    splitTrimFilter (trimSpace s) = splitTrimFilter s := by
  have h2 : trimSpace s ++ (s.dropWhile isSpaceGo).rtakeWhile isSpaceGo
      = s.dropWhile isSpaceGo := rdropWhile_append_rtakeWhile isSpaceGo _
  have hs2 : ∀ c ∈ (s.dropWhile isSpaceGo).rtakeWhile isSpaceGo, isSpaceGo c :=
    fun _ hc => List.mem_rtakeWhile_imp hc
  have hs1 : ∀ c ∈ s.takeWhile isSpaceGo, isSpaceGo c :=
    fun _ hc => List.mem_takeWhile_imp hc
  calc splitTrimFilter (trimSpace s)
      = splitTrimFilter (trimSpace s ++ (s.dropWhile isSpaceGo).rtakeWhile isSpaceGo) :=
        (splitTrimFilter_append_spaces _ _ hs2).symm
    _ = splitTrimFilter (s.dropWhile isSpaceGo) := by rw [h2]
    _ = splitTrimFilter (s.takeWhile isSpaceGo ++ s.dropWhile isSpaceGo) :=
        (splitTrimFilter_prepend_spaces _ _ hs1).symm
    _ = splitTrimFilter s := by rw [List.takeWhile_append_dropWhile]

theorem splitTrimFilter_eq_nil_of_space_semi (s : List Char)
    (h : ∀ c ∈ s, isSpaceGo c ∨ c = ';') :
    splitTrimFilter s = [] := by
  unfold splitTrimFilter
  rw [List.filter_eq_nil_iff]
  intro x hx
  rcases List.mem_map.mp hx with ⟨f, hf, hfx⟩
  have hall : ∀ c ∈ f, isSpaceGo c := by
    intro c hc
    have hm := mem_splitOnSemi s f hf c hc
    rcases h c hm.1 with h1 | h1
    · exact h1
    · exact absurd h1 hm.2
  rw [← hfx, trimSpace_eq_nil_of_all f hall]
  simp

/-! ## Lemmas about the executor loop -/

theorem runClean_cons_error {σ : Type} (dbExec : σ → List Char → Except GoErr σ)
    (st : σ) (s : List Char) (rest : List (List Char)) (e : GoErr)
    (hx : dbExec st s = .error e) :
    runClean dbExec st (s :: rest)
      = (st, [s], some (.wrapf "failed to execute statement: " e "")) := by
  simp [runClean, hx]

theorem runClean_cons_ok {σ : Type} (dbExec : σ → List Char → Except GoErr σ)
    (st st2 : σ) (s : List Char) (rest : List (List Char))
    (hx : dbExec st s = .ok st2) :
    runClean dbExec st (s :: rest)
      = ((runClean dbExec st2 rest).1,
         s :: (runClean dbExec st2 rest).2.1,
         (runClean dbExec st2 rest).2.2) := by
  simp [runClean, hx]

theorem execLoop_cons_skip {σ : Type} (dbExec : σ → List Char → Except GoErr σ)
    (st : σ) (raw : List Char) (rest : List (List Char))
    (hraw : (trimSpace raw).isEmpty) :
    execLoop dbExec st (raw :: rest) = execLoop dbExec st rest := by
  simp [execLoop, hraw]

theorem execLoop_cons_error {σ : Type} (dbExec : σ → List Char → Except GoErr σ)
    (st : σ) (raw : List Char) (rest : List (List Char)) (e : GoErr)
    (hraw : ¬ (trimSpace raw).isEmpty) (hx : dbExec st (trimSpace raw) = .error e) :
    execLoop dbExec st (raw :: rest)
      = (st, [trimSpace raw], some (.wrapf "failed to execute statement: " e "")) := by
  simp [execLoop, hraw, hx]

theorem execLoop_cons_ok {σ : Type} (dbExec : σ → List Char → Except GoErr σ)
    (st st2 : σ) (raw : List Char) (rest : List (List Char))
    (hraw : ¬ (trimSpace raw).isEmpty) (hx : dbExec st (trimSpace raw) = .ok st2) :
    execLoop dbExec st (raw :: rest)
      = ((execLoop dbExec st2 rest).1,
         trimSpace raw :: (execLoop dbExec st2 rest).2.1,
         (execLoop dbExec st2 rest).2.2) := by
  simp [execLoop, hraw, hx]

theorem execLoop_eq_runClean {σ : Type} (dbExec : σ → List Char → Except GoErr σ)
    (st : σ) (raws : List (List Char)) :
    execLoop dbExec st raws
      = runClean dbExec st ((raws.map trimSpace).filter (fun s => !s.isEmpty)) := by
  induction raws generalizing st with
  | nil => rfl
  | cons raw rest ih =>
    by_cases hraw : (trimSpace raw).isEmpty
    · rw [execLoop_cons_skip dbExec st raw rest hraw, ih]
      simp [hraw]
    · have h2 : ((raw :: rest).map trimSpace).filter (fun s => !s.isEmpty)
          = trimSpace raw :: (rest.map trimSpace).filter (fun s => !s.isEmpty) := by
        simp [hraw]
      rw [h2]
      cases hx : dbExec st (trimSpace raw) with
      | error e =>
        rw [execLoop_cons_error dbExec st raw rest e hraw hx,
          runClean_cons_error dbExec st _ _ e hx]
      | ok st2 =>
        rw [execLoop_cons_ok dbExec st st2 raw rest hraw hx,
          runClean_cons_ok dbExec st st2 _ _ hx, ih st2]

theorem runClean_none_trace {σ : Type} (dbExec : σ → List Char → Except GoErr σ)
    (st : σ) (stmts : List (List Char))
    (h : (runClean dbExec st stmts).2.2 = none) :
    (runClean dbExec st stmts).2.1 = stmts := by
  induction stmts generalizing st with
  | nil => rfl
  | cons s rest ih =>
    cases hx : dbExec st s with
    | error e => rw [runClean_cons_error dbExec st s rest e hx] at h; simp at h
    | ok st2 =>
      rw [runClean_cons_ok dbExec st st2 s rest hx] at h ⊢
      exact congrArg (s :: ·) (ih st2 h)

theorem runClean_trace_prefixOf {σ : Type} (dbExec : σ → List Char → Except GoErr σ)
    (st : σ) (stmts : List (List Char)) :
    (runClean dbExec st stmts).2.1 <+: stmts := by
  induction stmts generalizing st with
  | nil => exact List.prefix_refl _
  | cons s rest ih =>
    cases hx : dbExec st s with
    | error e =>
      rw [runClean_cons_error dbExec st s rest e hx]
      exact ⟨rest, rfl⟩
    | ok st2 =>
      rw [runClean_cons_ok dbExec st st2 s rest hx]
      exact List.cons_prefix_cons.mpr ⟨rfl, ih st2⟩

theorem runClean_fail {σ : Type} (dbExec : σ → List Char → Except GoErr σ)
    (stmts : List (List Char)) (k : Nat) (st stK : σ) (e : GoErr)
    (hk : k < stmts.length)
    (hpre : applyStmts dbExec st (stmts.take k) = .ok stK)
    (hfail : dbExec stK (stmts.get ⟨k, hk⟩) = .error e) :
    runClean dbExec st stmts
      = (stK, stmts.take (k + 1),
         some (.wrapf "failed to execute statement: " e "")) := by
  induction stmts generalizing k st with
  | nil => exact absurd hk (by simp)
  | cons s rest ih =>
    cases k with
    | zero =>
      simp only [List.take_zero, applyStmts, Except.ok.injEq] at hpre
      subst hpre
      simp only [List.get] at hfail
      rw [runClean_cons_error dbExec st s rest e hfail]
      rfl
    | succ k =>
      simp only [List.take_succ_cons, applyStmts] at hpre
      cases hx : dbExec st s with
      | error e2 => rw [hx] at hpre; simp at hpre
      | ok st2 =>
        rw [hx] at hpre
        have hk2 : k < rest.length := by simpa using hk
        have hfail2 : dbExec stK (rest.get ⟨k, hk2⟩) = .error e := hfail
        rw [runClean_cons_ok dbExec st st2 s rest hx, ih k st2 hk2 hpre hfail2,
          List.take_succ_cons]

theorem executeScript_eq_runClean {σ : Type}
    (dbExec : σ → List Char → Except GoErr σ) (st : σ) (script : List Char) :
    ExecuteScript dbExec st script = runClean dbExec st (splitTrimFilter script) := by
  unfold ExecuteScript
  by_cases ht : (trimSpace script).isEmpty
  · rw [if_pos ht]
    have hall : ∀ c ∈ script, isSpaceGo c :=
      all_space_of_trimSpace_eq_nil script (List.isEmpty_iff.mp ht)
    rw [splitTrimFilter_eq_nil_of_space_semi script (fun c hc => Or.inl (hall c hc))]
    rfl
  · rw [if_neg ht, execLoop_eq_runClean]
    show runClean dbExec st (splitTrimFilter (trimSpace script)) = _
    rw [splitTrimFilter_trimSpace]

/-! ## Claim theorems -/

/-- C1: for every non-empty script text, the sequence of statements
`ExecuteScript` submits to the database (the trace of `db.Exec` calls) is
always an order-preserving prefix of `splitTrimFilter script` — the script
split on every literal `';'` (a purely lexical split that does not treat
`';'` inside quoted literals or comments specially), each fragment trimmed
of surrounding whitespace, fragments empty after trimming removed, in
left-to-right order — and when the run reports no error it equals that
sequence exactly, for every database oracle and initial state. -/
theorem executeScript_submits_split_trim_filter {σ : Type}
    (dbExec : σ → List Char → Except GoErr σ) (st : σ) (script : List Char)
    (_hne : script ≠ []) :
    (ExecuteScript dbExec st script).2.1 <+: splitTrimFilter script ∧
    ((ExecuteScript dbExec st script).2.2 = none →
      (ExecuteScript dbExec st script).2.1 = splitTrimFilter script) := by
  rw [executeScript_eq_runClean]
  exact ⟨runClean_trace_prefixOf dbExec st _,
    fun h => runClean_none_trace dbExec st _ h⟩

/-- Witness for C1 on the script `a; b` with a counter-state oracle. -/
theorem executeScript_submits_split_trim_filter_witness :
    (['a', ';', ' ', 'c'] : List Char) ≠ [] ∧
    ((ExecuteScript countExec 0 ['a', ';', ' ', 'c']).2.1
        <+: splitTrimFilter ['a', ';', ' ', 'c'] ∧
     ((ExecuteScript countExec 0 ['a', ';', ' ', 'c']).2.2 = none →
       (ExecuteScript countExec 0 ['a', ';', ' ', 'c']).2.1
         = splitTrimFilter ['a', ';', ' ', 'c'])) :=
  ⟨by decide,
   executeScript_submits_split_trim_filter countExec 0 ['a', ';', ' ', 'c'] (by decide)⟩

/-- C2: if the statements at positions `0..k-1` of the issued sequence
succeed and the statement at position `k` (0-indexed; position `k+1`
1-indexed) fails with driver error `e`, then `ExecuteScript` stops
immediately: it issues exactly the statements up to and including position
`k` and no later one, and the returned error wraps `e` (so the failure is
attributable to that statement). -/
theorem executeScript_stops_at_first_failure {σ : Type}
    (dbExec : σ → List Char → Except GoErr σ) (st stK : σ)
    (script : List Char) (k : Nat) (e : GoErr)
    (hk : k < (splitTrimFilter script).length)
    (hpre : applyStmts dbExec st ((splitTrimFilter script).take k) = .ok stK)
    (hfail : dbExec stK ((splitTrimFilter script).get ⟨k, hk⟩) = .error e) :
    (ExecuteScript dbExec st script).2.1 = (splitTrimFilter script).take (k + 1) ∧
    (ExecuteScript dbExec st script).2.2
      = some (.wrapf "failed to execute statement: " e "") ∧
    (GoErr.wrapf "failed to execute statement: " e "").unwrap = some e := by
  rw [executeScript_eq_runClean,
    runClean_fail dbExec (splitTrimFilter script) k st stK e hk hpre hfail]
  exact ⟨rfl, rfl, rfl⟩

/-- Witness for C2: in `a;b;c` the oracle fails on `b` (position 1,
0-indexed); exactly `a` and `b` are issued and the error wraps `boom`. -/
theorem executeScript_stops_at_first_failure_witness :
    (ExecuteScript countExec 0 ['a', ';', 'b', ';', 'c']).2.1
        = (splitTrimFilter ['a', ';', 'b', ';', 'c']).take 2 ∧
    (ExecuteScript countExec 0 ['a', ';', 'b', ';', 'c']).2.2
        = some (.wrapf "failed to execute statement: " (.base "boom") "") ∧
    (GoErr.wrapf "failed to execute statement: " (.base "boom") "").unwrap
        = some (.base "boom") :=
  executeScript_stops_at_first_failure countExec 0 1 ['a', ';', 'b', ';', 'c']
    1 (.base "boom") (by decide) (by rfl) (by rfl)

/-- C3: a script consisting solely of whitespace characters and/or `';'`
characters makes `ExecuteScript` return success having issued zero
statements (and leaves the database state untouched), for every oracle. -/
theorem executeScript_whitespace_semicolons_noop {σ : Type}
    (dbExec : σ → List Char → Except GoErr σ) (st : σ) (script : List Char)
    (hws : ∀ c ∈ script, isSpaceGo c = true ∨ c = ';') :
    ExecuteScript dbExec st script = (st, [], none) := by
  rw [executeScript_eq_runClean,
    splitTrimFilter_eq_nil_of_space_semi script (fun c hc => hws c hc)]
  rfl

/-- Witness for C3 on the concrete script `";;;  ;"`. -/
theorem executeScript_whitespace_semicolons_noop_witness :
    (∀ c ∈ ([';', ';', ';', ' ', ' ', ';'] : List Char), isSpaceGo c = true ∨ c = ';') ∧
    ExecuteScript countExec 0 [';', ';', ';', ' ', ' ', ';'] = (0, [], none) :=
  ⟨by decide,
   executeScript_whitespace_semicolons_noop countExec 0 [';', ';', ';', ' ', ' ', ';']
     (by decide)⟩

/-- C4: when `ExecuteScript` fails at the statement in position `k`
(0-indexed), the returned database state is exactly the state reached by
applying the first `k` statements (1-indexed: statements `1..k-1` before
the failing one): no enclosing transaction is opened and nothing is rolled
back, so the effects of the already-executed statements remain applied. -/
theorem executeScript_failure_keeps_prior_effects {σ : Type}
    (dbExec : σ → List Char → Except GoErr σ) (st stK : σ)
    (script : List Char) (k : Nat) (e : GoErr)
    (hk : k < (splitTrimFilter script).length)
    (hpre : applyStmts dbExec st ((splitTrimFilter script).take k) = .ok stK)
    (hfail : dbExec stK ((splitTrimFilter script).get ⟨k, hk⟩) = .error e) :
    (ExecuteScript dbExec st script).1 = stK := by
  rw [executeScript_eq_runClean,
    runClean_fail dbExec (splitTrimFilter script) k st stK e hk hpre hfail]

/-- Witness for C4: after failing on `b`, the counter state still reflects
the successful execution of `a` (state `1`), not a rollback to `0`. -/
theorem executeScript_failure_keeps_prior_effects_witness :
    (ExecuteScript countExec 0 ['a', ';', 'b', ';', 'c']).1 = 1 :=
  executeScript_failure_keeps_prior_effects countExec 0 1 ['a', ';', 'b', ';', 'c']
    1 (.base "boom") (by decide) (by rfl) (by rfl)

/-- C9: every statement `ExecuteScript` issues to the database — for every
oracle, state and script — is non-empty, carries no leading or trailing
whitespace (it is a fixed point of `trimSpace`), and contains no `';'`. -/
theorem executeScript_issued_statement_invariant {σ : Type}
    (dbExec : σ → List Char → Except GoErr σ) (st : σ) (script : List Char)
    (s : List Char) (hs : s ∈ (ExecuteScript dbExec st script).2.1) :
    s ≠ [] ∧ trimSpace s = s ∧ ';' ∉ s := by
  rw [executeScript_eq_runClean] at hs
  have h1 : s ∈ splitTrimFilter script :=
    (runClean_trace_prefixOf dbExec st _).sublist.subset hs
  unfold splitTrimFilter at h1
  rcases List.mem_filter.mp h1 with ⟨hmem, hne⟩
  rcases List.mem_map.mp hmem with ⟨f, hf, hfs⟩
  refine ⟨?_, ?_, ?_⟩
  · intro hnil
    rw [hnil] at hne
    simp at hne
  · rw [← hfs]
    exact trimSpace_idem f
  · intro hsemi
    have hc : (';' : Char) ∈ trimSpace f := by rw [hfs]; exact hsemi
    exact (mem_splitOnSemi script f hf ';' (mem_trimSpace f ';' hc)).2 rfl

/-- Witness for C9: the single statement issued for the script `a` is
non-empty, trimmed and semicolon-free. -/
theorem executeScript_issued_statement_invariant_witness :
    (['a'] : List Char) ∈ (ExecuteScript countExec 0 ['a']).2.1 ∧
    ((['a'] : List Char) ≠ [] ∧ trimSpace ['a'] = ['a'] ∧ ';' ∉ (['a'] : List Char)) :=
  ⟨by decide,
   executeScript_issued_statement_invariant countExec 0 ['a'] ['a'] (by decide)⟩

/-- C5: when `Connect` opens a handle but the reachability ping fails, the
handle is closed before the error is returned (the call trace is exactly
open, ping, close), no handle is returned, and the returned error keeps
the ping failure as its wrapped cause and surfaces its message; if the
close itself also fails, the close error's message is surfaced in the same
returned error, without masking the ping error as the cause. -/
theorem connect_ping_failure_closes_and_wraps {H : Type} (B : Backend H)
    (driver dsn : String) (db : H) (pe : GoErr)
    (hdsn : dsn ≠ "") (hopen : B.sqlOpen driver dsn = .ok db)
    (hping : B.ping db = some pe) :
    (Connect B driver dsn).2.2 = [.openCall, .pingCall, .closeCall] ∧
    (Connect B driver dsn).1 = none ∧
    ∃ err, (Connect B driver dsn).2.1 = some err ∧
      err.unwrap = some pe ∧
      strOccurs pe.render err.render ∧
      (∀ ce, B.close db = some ce → strOccurs ce.render err.render) := by
  cases hclose : B.close db with
  | some ce =>
    have hC : Connect B driver dsn
        = (none, some (.wrapf "failed to ping database: " pe
            (" (close error: " ++ ce.render ++ ")")),
           [.openCall, .pingCall, .closeCall]) := by
      simp [Connect, hdsn, hopen, hping, hclose]
    rw [hC]
    refine ⟨rfl, rfl, _, rfl, rfl, ⟨"failed to ping database: ", _, rfl⟩, ?_⟩
    intro ce2 hce2
    have hcc : ce = ce2 := Option.some.inj hce2
    subst hcc
    refine ⟨"failed to ping database: " ++ pe.render ++ " (close error: ", ")", ?_⟩
    show ("failed to ping database: " ++ pe.render)
          ++ (" (close error: " ++ ce.render ++ ")")
        = (("failed to ping database: " ++ pe.render ++ " (close error: ")
            ++ ce.render) ++ ")"
    simp [String.append_assoc]
  | none =>
    have hC : Connect B driver dsn
        = (none, some (.wrapf "failed to ping database: " pe ""),
           [.openCall, .pingCall, .closeCall]) := by
      simp [Connect, hdsn, hopen, hping, hclose]
    rw [hC]
    refine ⟨rfl, rfl, _, rfl, rfl, ⟨"failed to ping database: ", "", rfl⟩, ?_⟩
    intro ce2 hce2
    exact absurd hce2 (by simp)

/-- Witness for C5 on a backend whose ping and close both fail. -/
theorem connect_ping_failure_closes_and_wraps_witness :
    (Connect pingFailBackend "sqlite" ":memory:").2.2
        = [.openCall, .pingCall, .closeCall] ∧
    (Connect pingFailBackend "sqlite" ":memory:").1 = none ∧
    ∃ err, (Connect pingFailBackend "sqlite" ":memory:").2.1 = some err ∧
      err.unwrap = some (.base "ping failed") ∧
      strOccurs (GoErr.base "ping failed").render err.render ∧
      (∀ ce, pingFailBackend.close () = some ce →
        strOccurs ce.render err.render) :=
  connect_ping_failure_closes_and_wraps pingFailBackend "sqlite" ":memory:" ()
    (.base "ping failed") (by decide) (by rfl) (by rfl)

/-- C6: for every backend and driver name, `Connect` with an empty
connection string returns no handle and the configuration-class
empty-DSN error, with an empty driver-call trace — so no attempt is made
to open a connection. -/
theorem connect_empty_dsn_config_error {H : Type} (B : Backend H)
    (driver : String) :
    Connect B driver "" = (none, some (.base "DSN cannot be empty"), []) ∧
    GoErr.isConfigClass (.base "DSN cannot be empty") = true := by
  constructor
  · simp [Connect]
  · rfl

/-- C10: `Connect` never returns both a handle and an error: the handle
slot is filled exactly when the error slot is empty; and whenever a handle
is returned, it came from a successful open and its ping succeeded. -/
theorem connect_handle_xor_error {H : Type} (B : Backend H)
    (driver dsn : String) :
    ((Connect B driver dsn).1.isSome ↔ (Connect B driver dsn).2.1 = none) ∧
    (∀ db, (Connect B driver dsn).1 = some db →
      B.ping db = none ∧ (Connect B driver dsn).2.1 = none ∧
      B.sqlOpen driver dsn = .ok db) := by
  by_cases hdsn : dsn = ""
  · have hC : Connect B driver dsn
        = (none, some (.base "DSN cannot be empty"), []) := by
      simp [Connect, hdsn]
    rw [hC]
    exact ⟨by simp, by simp⟩
  · cases hopen : B.sqlOpen driver dsn with
    | error e =>
      have hC : Connect B driver dsn
          = (none, some (.wrapf "failed to open database: " e ""), [.openCall]) := by
        simp [Connect, hdsn, hopen]
      rw [hC]
      exact ⟨by simp, by simp⟩
    | ok db =>
      cases hping : B.ping db with
      | some pe =>
        cases hclose : B.close db with
        | some ce =>
          have hC : Connect B driver dsn
              = (none, some (.wrapf "failed to ping database: " pe
                  (" (close error: " ++ ce.render ++ ")")),
                 [.openCall, .pingCall, .closeCall]) := by
            simp [Connect, hdsn, hopen, hping, hclose]
          rw [hC]
          exact ⟨by simp, by simp⟩
        | none =>
          have hC : Connect B driver dsn
              = (none, some (.wrapf "failed to ping database: " pe ""),
                 [.openCall, .pingCall, .closeCall]) := by
            simp [Connect, hdsn, hopen, hping, hclose]
          rw [hC]
          exact ⟨by simp, by simp⟩
      | none =>
        have hC : Connect B driver dsn = (some db, none, [.openCall, .pingCall]) := by
          simp [Connect, hdsn, hopen, hping]
        rw [hC]
        refine ⟨by simp, ?_⟩
        intro db2 hdb2
        have hdd : db = db2 := Option.some.inj hdb2
        subst hdd
        exact ⟨hping, rfl, rfl⟩

/-- Witness for C10 on a backend where every call succeeds. -/
theorem connect_handle_xor_error_witness :
    ((Connect okBackend "sqlite" ":memory:").1.isSome
        ↔ (Connect okBackend "sqlite" ":memory:").2.1 = none) ∧
    (okBackend.ping () = none ∧ (Connect okBackend "sqlite" ":memory:").2.1 = none ∧
      okBackend.sqlOpen "sqlite" ":memory:" = .ok ()) :=
  ⟨(connect_handle_xor_error okBackend "sqlite" ":memory:").1,
   (connect_handle_xor_error okBackend "sqlite" ":memory:").2 () (by rfl)⟩

/-- C7: `LoadScript` with the empty path fails with the
configuration-class empty-path error without calling the filesystem, and
that error is distinct in class and in value from the read-class error
returned for an unreadable file, which wraps the underlying I/O error. -/
theorem loadScript_error_classes (fs : FileSys) :
    (LoadScript fs "" = (none, some (.base "script path cannot be empty"), false) ∧
     GoErr.isConfigClass (.base "script path cannot be empty") = true) ∧
    (∀ path e, path ≠ "" → fs.readFile path = .error e →
      LoadScript fs path
        = (none, some (.wrapf "failed to read script file: " e ""), true) ∧
      GoErr.unwrap (.wrapf "failed to read script file: " e "") = some e ∧
      GoErr.isConfigClass (.wrapf "failed to read script file: " e "") = false ∧
      GoErr.wrapf "failed to read script file: " e ""
        ≠ GoErr.base "script path cannot be empty") := by
  refine ⟨⟨by simp [LoadScript], rfl⟩, ?_⟩
  intro path e hpath hread
  have hL : LoadScript fs path
      = (none, some (.wrapf "failed to read script file: " e ""), true) := by
    simp [LoadScript, hpath, hread]
  exact ⟨hL, rfl, rfl, fun h => GoErr.noConfusion h⟩

/-- Witness for C7 on a filesystem with no file at `missing.sql`. -/
theorem loadScript_error_classes_witness :
    ("missing.sql" ≠ "" ∧
     demoFS.readFile "missing.sql" = .error (.base "no such file")) ∧
    (LoadScript demoFS "missing.sql"
        = (none, some (.wrapf "failed to read script file: "
            (.base "no such file") ""), true) ∧
     GoErr.unwrap (.wrapf "failed to read script file: " (.base "no such file") "")
        = some (.base "no such file") ∧
     GoErr.isConfigClass
        (.wrapf "failed to read script file: " (.base "no such file") "") = false ∧
     GoErr.wrapf "failed to read script file: " (.base "no such file") ""
        ≠ GoErr.base "script path cannot be empty") :=
  ⟨⟨by decide, by rfl⟩,
   (loadScript_error_classes demoFS).2 "missing.sql" (.base "no such file")
     (by decide) (by rfl)⟩

/-- C8: for every file the filesystem can read, `LoadScript` returns
exactly the file's byte content, unmodified, with no error. -/
theorem loadScript_returns_exact_bytes (fs : FileSys) (path : String)
    (content : List Nat) (hpath : path ≠ "")
    (hread : fs.readFile path = .ok content) :
    LoadScript fs path = (some content, none, true) := by
  simp [LoadScript, hpath, hread]

/-- Witness for C8: reading the two-byte file `good.sql`. -/
theorem loadScript_returns_exact_bytes_witness :
    LoadScript demoFS "good.sql" = (some [65, 66], none, true) :=
  loadScript_returns_exact_bytes demoFS "good.sql" [65, 66] (by decide) (by rfl)

end SqlLoader
